import Mathlib

/-!
Shallow embedding of the publicai-token NEAR fungible-token contract
(src/src/lib.rs).  The contract is a thin wrapper around the
near-contract-standards FungibleToken accounting library and the near-sdk
environment helpers; those library functions are not part of the
repository sources, so they are modelled here from the specification
(each such definition carries a doc comment starting with
"Modelled from the spec:").  The wrapper code itself (update_metadata,
update_owner, ft_resolve_transfer, storage_unregister, Contract::new,
ft_metadata) is translated directly from src/src/lib.rs.

Conventions of the embedding:
 - u128 amounts become Nat; the overflow checks of the Rust code
   (checked_add / checked_sub with panics) are modelled explicitly
   against U128LIMIT = 2^128.
 - a panicking path (require! / env::panic_str / assert_one_yocto)
   becomes an Except.error; the NEAR host rolls back every state write
   of an aborted call, so an error result carries no state, which makes
   failure atomicity structural in this embedding.
 - the LookupMap of registered accounts becomes an association list
   with no duplicate keys (the Wf predicate); presence of a key is
   registration, exactly as in the library, where a registered account
   always has a (possibly zero) balance entry.
-/

namespace PublicaiToken

/-- Account identifiers: opaque validated strings (near-sdk AccountId). -/
abbrev AccountId := String

/-- The registered-accounts map of the FungibleToken library
(LookupMap of AccountId to u128), embedded as an association list. -/
abbrev Ledger := List (AccountId × Nat)

/-- Lookup of an account's balance entry (LookupMap::get). -/
def getBal : Ledger → AccountId → Option Nat
  | [], _ => none
  | (b, w) :: t, a => if b = a then some w else getBal t a

/-- Insert-or-replace of an account's balance entry (LookupMap::insert). -/
def setBal : Ledger → AccountId → Nat → Ledger
  | [], a, v => [(a, v)]
  | (b, w) :: t, a, v => if b = a then (a, v) :: t else (b, w) :: setBal t a v

/-- Removal of an account's balance entry (LookupMap::remove). -/
def delBal : Ledger → AccountId → Ledger
  | [], _ => []
  | (b, w) :: t, a => if b = a then t else (b, w) :: delBal t a

/-- Sum of all balance entries of the ledger. -/
def sumBal (l : Ledger) : Nat := (l.map Prod.snd).sum

/-- The account identifiers occurring in the ledger. -/
def keys (l : Ledger) : List AccountId := l.map Prod.fst

/-- Well-formedness of a ledger: each account occurs at most once. -/
abbrev NodupKeys (l : Ledger) : Prop := (keys l).Nodup

@[simp] theorem keys_nil : keys ([] : Ledger) = [] := rfl

@[simp] theorem keys_cons (b : AccountId) (w : Nat) (t : Ledger) :
    keys ((b, w) :: t) = b :: keys t := rfl

@[simp] theorem sumBal_nil : sumBal [] = 0 := rfl

@[simp] theorem sumBal_cons (b : AccountId) (w : Nat) (t : Ledger) :
    sumBal ((b, w) :: t) = w + sumBal t := by
  simp [sumBal]

theorem getBal_setBal_self (l : Ledger) (a : AccountId) (v : Nat) :
    getBal (setBal l a v) a = some v := by
  induction l with
  | nil => simp [setBal, getBal]
  | cons hd t ih =>
    obtain ⟨b, w⟩ := hd
    by_cases hb : b = a
    · simp [setBal, hb, getBal]
    · simp [setBal, hb, getBal, ih]

theorem getBal_setBal_ne (l : Ledger) (a c : AccountId) (v : Nat) (h : c ≠ a) :
    getBal (setBal l a v) c = getBal l c := by
  have h' : a ≠ c := Ne.symm h
  induction l with
  | nil => simp [setBal, getBal, h']
  | cons hd t ih =>
    obtain ⟨b, w⟩ := hd
    by_cases hb : b = a
    · subst hb
      simp [setBal, getBal, h']
    · simp [setBal, hb, getBal, ih]

theorem getBal_none_iff (l : Ledger) (a : AccountId) :
    getBal l a = none ↔ a ∉ keys l := by
  induction l with
  | nil => simp [getBal]
  | cons hd t ih =>
    obtain ⟨b, w⟩ := hd
    by_cases hb : b = a
    · simp [getBal, hb]
    · simp [getBal, hb, ih]
      intro _ he
      exact hb he.symm

theorem mem_keys_of_getBal_some {l : Ledger} {a : AccountId} {w : Nat}
    (h : getBal l a = some w) : a ∈ keys l := by
  by_contra hmem
  rw [← getBal_none_iff] at hmem
  rw [h] at hmem
  cases hmem

theorem keys_setBal_mem (l : Ledger) (a : AccountId) (v : Nat) (h : a ∈ keys l) :
    keys (setBal l a v) = keys l := by
  induction l with
  | nil => simp at h
  | cons hd t ih =>
    obtain ⟨b, w⟩ := hd
    by_cases hb : b = a
    · simp [setBal, hb]
    · have ht : a ∈ keys t := by
        simp at h
        rcases h with h | h
        · exact absurd h.symm hb
        · exact h
      simp [setBal, hb, ih ht]

theorem keys_setBal_not_mem (l : Ledger) (a : AccountId) (v : Nat) (h : a ∉ keys l) :
    keys (setBal l a v) = keys l ++ [a] := by
  induction l with
  | nil => simp [setBal]
  | cons hd t ih =>
    obtain ⟨b, w⟩ := hd
    have hb : b ≠ a := by
      intro he
      exact h (by simp [he])
    have ht : a ∉ keys t := by
      intro hmem
      exact h (by simp [hmem])
    simp [setBal, hb, ih ht]

theorem nodup_setBal (l : Ledger) (a : AccountId) (v : Nat) (h : NodupKeys l) :
    NodupKeys (setBal l a v) := by
  by_cases hmem : a ∈ keys l
  · unfold NodupKeys
    rw [keys_setBal_mem l a v hmem]
    exact h
  · unfold NodupKeys
    rw [keys_setBal_not_mem l a v hmem]
    simpa [List.nodup_append] using ⟨h, fun hx => hmem hx⟩

theorem sumBal_setBal {l : Ledger} {a : AccountId} {w : Nat} (v : Nat)
    (h : getBal l a = some w) : sumBal (setBal l a v) + w = sumBal l + v := by
  induction l with
  | nil => simp [getBal] at h
  | cons hd t ih =>
    obtain ⟨b, w'⟩ := hd
    by_cases hb : b = a
    · simp [getBal, hb] at h
      subst h
      simp [setBal, hb]
      omega
    · simp [getBal, hb] at h
      have := ih h
      simp [setBal, hb]
      omega

theorem sumBal_setBal_none {l : Ledger} {a : AccountId} (v : Nat)
    (h : getBal l a = none) : sumBal (setBal l a v) = sumBal l + v := by
  induction l with
  | nil => simp [setBal]
  | cons hd t ih =>
    obtain ⟨b, w⟩ := hd
    by_cases hb : b = a
    · simp [getBal, hb] at h
    · simp [getBal, hb] at h
      have := ih h
      simp [setBal, hb]
      omega

theorem getBal_le_sumBal {l : Ledger} {a : AccountId} {w : Nat}
    (h : getBal l a = some w) : w ≤ sumBal l := by
  induction l with
  | nil => simp [getBal] at h
  | cons hd t ih =>
    obtain ⟨b, w'⟩ := hd
    by_cases hb : b = a
    · simp [getBal, hb] at h
      subst h
      simp
    · simp [getBal, hb] at h
      have := ih h
      simp
      omega

theorem sumBal_delBal {l : Ledger} {a : AccountId} {w : Nat}
    (h : getBal l a = some w) : sumBal (delBal l a) + w = sumBal l := by
  induction l with
  | nil => simp [getBal] at h
  | cons hd t ih =>
    obtain ⟨b, w'⟩ := hd
    by_cases hb : b = a
    · simp [getBal, hb] at h
      subst h
      simp [delBal, hb]
      omega
    · simp [getBal, hb] at h
      have := ih h
      simp [delBal, hb]
      omega

theorem getBal_delBal_self (l : Ledger) (a : AccountId) (h : NodupKeys l) :
    getBal (delBal l a) a = none := by
  induction l with
  | nil => simp [delBal, getBal]
  | cons hd t ih =>
    obtain ⟨b, w⟩ := hd
    have hcons := List.nodup_cons.mp (by simpa [NodupKeys] using h)
    have hnd : NodupKeys t := hcons.2
    by_cases hb : b = a
    · subst hb
      simp [delBal]
      rw [getBal_none_iff]
      exact hcons.1
    · simp [delBal, hb, getBal, hb, ih hnd]

theorem getBal_delBal_ne (l : Ledger) (a c : AccountId) (h : c ≠ a) :
    getBal (delBal l a) c = getBal l c := by
  induction l with
  | nil => simp [delBal]
  | cons hd t ih =>
    obtain ⟨b, w⟩ := hd
    by_cases hb : b = a
    · have hbc : b ≠ c := by
        rw [hb]
        exact Ne.symm h
      simp [delBal, hb, getBal, hbc, Ne.symm h]
    · simp [delBal, hb, getBal, ih]

theorem keys_delBal_sublist (l : Ledger) (a : AccountId) :
    (keys (delBal l a)).Sublist (keys l) := by
  induction l with
  | nil => simp [delBal]
  | cons hd t ih =>
    obtain ⟨b, w⟩ := hd
    by_cases hb : b = a
    · simp [delBal, hb]
    · simp [delBal, hb]
      exact ih

theorem nodup_delBal (l : Ledger) (a : AccountId) (h : NodupKeys l) :
    NodupKeys (delBal l a) :=
  (keys_delBal_sublist l a).nodup h

theorem delBal_of_getBal_none {l : Ledger} {a : AccountId}
    (h : getBal l a = none) : delBal l a = l := by
  induction l with
  | nil => simp [delBal]
  | cons hd t ih =>
    obtain ⟨b, w⟩ := hd
    by_cases hb : b = a
    · simp [getBal, hb] at h
    · simp [getBal, hb] at h
      simp [delBal, hb, ih h]

/-- Upper bound of u128 arithmetic: the checked_add / checked_sub panics of
the Rust code are modelled against this limit. -/
def U128LIMIT : Nat := 2 ^ 128

/-- Error taxonomy of the aborting paths (require! / env::panic_str /
assert_one_yocto), named after the specification's error taxonomy (§7). -/
inductive FTError where
  | InvalidRequest
  | NotRegistered
  | InsufficientBalance
  | InsufficientDeposit
  | ExcessWithdrawal
  | NonZeroBalance
  | NotOwner
  | InvalidOwner
  | DecimalsImmutable
  | InsufficientAuthorizationPayment
  | InvalidMetadata
  | MetadataMissing
  | BalanceOverflow
  | TotalSupplyOverflow
deriving DecidableEq, Repr

/-- Modelled from the spec: the FungibleToken state of the
near-contract-standards accounting library (not in src/): the LookupMap of
registered accounts with their u128 balances, and the u128 total supply. -/
structure FungibleToken where
  accounts : Ledger
  total_supply : Nat
deriving DecidableEq, Repr

/-- Well-formedness of the token state: account keys are unique and the
recorded total supply equals the sum of all balances. -/
def Wf (st : FungibleToken) : Prop :=
  NodupKeys st.accounts ∧ st.total_supply = sumBal st.accounts

/-- Metadata record (near-contract-standards FungibleTokenMetadata);
reference_hash is a byte vector, embedded as a list of byte values. -/
structure FTMetadata where
  spec : String
  name : String
  symbol : String
  icon : Option String
  reference : Option String
  reference_hash : Option (List Nat)
  decimals : Nat
deriving DecidableEq, Repr

/-- The required metadata spec string FT_METADATA_SPEC. -/
def FT_METADATA_SPEC : String := "ft-1.0.0"

/-- Modelled from the spec: FungibleTokenMetadata::assert_valid of the
metadata library (not in src/): the spec string must equal
FT_METADATA_SPEC, reference and reference_hash must be both present or
both absent, and a present reference_hash must be 32 bytes long. -/
def assertValid (m : FTMetadata) : Bool :=
  m.spec == FT_METADATA_SPEC &&
  m.reference.isSome == m.reference_hash.isSome &&
  (match m.reference_hash with
   | some h => h.length == 32
   | none => true)

/-- The contract state of src/src/lib.rs: owner_id, token, metadata
(a LazyOption, embedded as Option). -/
structure Contract where
  owner_id : AccountId
  token : FungibleToken
  metadata : Option FTMetadata
deriving DecidableEq, Repr

/-- Storage balance record of the storage-management standard. -/
structure StorageBalance where
  total : Nat
  available : Nat
deriving DecidableEq, Repr

/-- Storage balance bounds of the storage-management standard. -/
structure StorageBalanceBounds where
  min : Nat
  max : Option Nat
deriving DecidableEq, Repr

/-- Modelled from the spec: FungibleToken::ft_balance_of of the accounting
library (not in src/): 0 for unknown accounts, no error. -/
def ft_balance_of (st : FungibleToken) (a : AccountId) : Nat :=
  (getBal st.accounts a).getD 0

/-- Modelled from the spec: FungibleToken::internal_deposit of the
accounting library (not in src/): credits a registered account, panicking
when the account is not registered or a u128 addition overflows; the
total supply is incremented in lockstep. -/
def internal_deposit (st : FungibleToken) (a : AccountId) (amount : Nat) :
    Except FTError FungibleToken :=
  match getBal st.accounts a with
  | none => .error .NotRegistered
  | some b =>
    if b + amount < U128LIMIT then
      if st.total_supply + amount < U128LIMIT then
        .ok ⟨setBal st.accounts a (b + amount), st.total_supply + amount⟩
      else .error .TotalSupplyOverflow
    else .error .BalanceOverflow

/-- Modelled from the spec: FungibleToken::internal_withdraw of the
accounting library (not in src/): debits a registered account, panicking
when the account is not registered or its balance is insufficient; the
total supply is decremented in lockstep (checked subtraction). -/
def internal_withdraw (st : FungibleToken) (a : AccountId) (amount : Nat) :
    Except FTError FungibleToken :=
  match getBal st.accounts a with
  | none => .error .NotRegistered
  | some b =>
    if amount ≤ b then
      if amount ≤ st.total_supply then
        .ok ⟨setBal st.accounts a (b - amount), st.total_supply - amount⟩
      else .error .TotalSupplyOverflow
    else .error .InsufficientBalance

/-- Modelled from the spec: FungibleToken::internal_transfer of the
accounting library (not in src/): rejects self-transfers and zero
amounts (InvalidRequest), then debits the sender and credits the
receiver. -/
def internal_transfer (st : FungibleToken) (sender receiver : AccountId)
    (amount : Nat) : Except FTError FungibleToken :=
  if sender = receiver then .error .InvalidRequest
  else if amount = 0 then .error .InvalidRequest
  else
    match internal_withdraw st sender amount with
    | .error e => .error e
    | .ok st1 => internal_deposit st1 receiver amount

/-- Contract::ft_transfer of src/src/lib.rs, delegating to the library
ft_transfer: assert_one_yocto (modelled as the attached deposit in
yoctoNEAR having to equal 1), then internal_transfer from the
predecessor account. -/
def ft_transfer (c : Contract) (predecessor : AccountId) (deposit : Nat)
    (receiver : AccountId) (amount : Nat) : Except FTError Contract :=
  if deposit ≠ 1 then .error .InsufficientAuthorizationPayment
  else
    match internal_transfer c.token predecessor receiver amount with
    | .error e => .error e
    | .ok t => .ok { c with token := t }

/-- The unused amount a transfer-call resolution works with: the amount
declared unused by the receiver-side call, clamped to the transferred
amount; a failed (or unparseable) receiver-side call counts as
everything unused. -/
def unusedOf (amount : Nat) (reported : Option Nat) : Nat :=
  match reported with
  | some v => min amount v
  | none => amount

/-- Modelled from the spec: FungibleToken::internal_ft_resolve_transfer of
the accounting library (not in src/), the resolution step of a
transfer-call (spec §4.3).  `reported` is the receiver-side outcome:
`some v` for a successful receiver call declaring `v` unused, `none` for
a failed receiver call (treated as everything unused).  The refund is
capped at the receiver's current balance; the sender is re-credited the
refund when its account still exists, otherwise the refund is burned
(total supply decremented).  Returns (state, used_amount,
burned_amount). -/
def internal_ft_resolve_transfer (st : FungibleToken)
    (sender receiver : AccountId) (amount : Nat) (reported : Option Nat) :
    Except FTError (FungibleToken × Nat × Nat) :=
  let unused := unusedOf amount reported
  if unused = 0 then .ok (st, amount, 0)
  else
    let receiverBalance := (getBal st.accounts receiver).getD 0
    if receiverBalance = 0 then .ok (st, amount, 0)
    else
      let refund := min receiverBalance unused
      let l1 := setBal st.accounts receiver (receiverBalance - refund)
      match getBal l1 sender with
      | some senderBalance =>
        if senderBalance + refund < U128LIMIT then
          .ok (⟨setBal l1 sender (senderBalance + refund), st.total_supply⟩,
               amount - refund, 0)
        else .error .BalanceOverflow
      | none =>
        if refund ≤ st.total_supply then
          .ok (⟨l1, st.total_supply - refund⟩, amount, refund)
        else .error .TotalSupplyOverflow

/-- Contract::ft_resolve_transfer of src/src/lib.rs: delegates to
internal_ft_resolve_transfer, logs the burn when non-zero, and surfaces
only the used amount. -/
def ft_resolve_transfer (c : Contract) (sender receiver : AccountId)
    (amount : Nat) (reported : Option Nat) : Except FTError (Contract × Nat) :=
  match internal_ft_resolve_transfer c.token sender receiver amount reported with
  | .error e => .error e
  | .ok (t, used, _) => .ok ({ c with token := t }, used)

/-- Modelled from the spec: the storage bounds of the accounting library
(not in src/): min and max are both the flat registration fee (the
byte-cost of one account record; env-dependent, a parameter here). -/
def storage_balance_bounds (fee : Nat) : StorageBalanceBounds :=
  ⟨fee, some fee⟩

/-- Modelled from the spec: internal_storage_balance_of of the accounting
library (not in src/): Some (total = flat fee, available = 0) for a
registered account, None otherwise. -/
def internal_storage_balance_of (st : FungibleToken) (fee : Nat)
    (a : AccountId) : Option StorageBalance :=
  match getBal st.accounts a with
  | some _ => some ⟨fee, 0⟩
  | none => none

/-- Modelled from the spec: FungibleToken::storage_deposit of the
accounting library (not in src/): the target defaults to the
predecessor; an already registered target keeps its state and the whole
attached payment is refunded; an unregistered target needs the flat fee
attached, is registered with balance zero, and the excess is refunded.
Returns (state, refund to the predecessor, resulting storage balance).
The registration_only flag is accepted and ignored, as in the library
(min equals max, so nothing beyond the fee is ever kept). -/
def storage_deposit (st : FungibleToken) (fee : Nat)
    (predecessor : AccountId) (attached : Nat) (account_id : Option AccountId)
    ( registration_only : Option Bool) :
    Except FTError (FungibleToken × Nat × StorageBalance) :=
  let a := account_id.getD predecessor
  match getBal st.accounts a with
  | some _ => .ok (st, attached, ⟨fee, 0⟩)
  | none =>
    if attached < fee then .error .InsufficientDeposit
    else .ok (⟨setBal st.accounts a 0, st.total_supply⟩, attached - fee, ⟨fee, 0⟩)

/-- Modelled from the spec: FungibleToken::storage_withdraw of the
accounting library (not in src/): assert_one_yocto, NotRegistered for an
unregistered caller, ExcessWithdrawal when the requested amount exceeds
the (always zero) available balance, otherwise a no-op returning the
current storage balance. -/
def storage_withdraw (st : FungibleToken) (fee : Nat)
    (predecessor : AccountId) (deposit : Nat) (amount : Option Nat) :
    Except FTError StorageBalance :=
  if deposit ≠ 1 then .error .InsufficientAuthorizationPayment
  else
    match internal_storage_balance_of st fee predecessor with
    | none => .error .NotRegistered
    | some sb =>
      match amount with
      | some amt => if sb.available < amt then .error .ExcessWithdrawal else .ok sb
      | none => .ok sb

/-- Modelled from the spec: FungibleToken::internal_storage_unregister of
the accounting library (not in src/): assert_one_yocto; None (no state
change) when the caller is not registered; with a zero balance or
force=true the account entry is removed and the total supply decremented
by its balance; otherwise the call aborts with NonZeroBalance.  Returns
the removed (account, balance) pair on success. -/
def internal_storage_unregister (st : FungibleToken)
    (predecessor : AccountId) (deposit : Nat) (force : Option Bool) :
    Except FTError (FungibleToken × Option (AccountId × Nat)) :=
  if deposit ≠ 1 then .error .InsufficientAuthorizationPayment
  else
    match getBal st.accounts predecessor with
    | some balance =>
      if balance = 0 ∨ force.getD false then
        .ok (⟨delBal st.accounts predecessor, st.total_supply - balance⟩,
             some (predecessor, balance))
      else .error .NonZeroBalance
    | none => .ok (st, none)

/-- Contract::storage_unregister of src/src/lib.rs: delegates to
internal_storage_unregister, logs the closed account, and returns true
when an account was removed, false otherwise. -/
def storage_unregister (c : Contract) (predecessor : AccountId)
    (deposit : Nat) (force : Option Bool) : Except FTError (Contract × Bool) :=
  match internal_storage_unregister c.token predecessor deposit force with
  | .error e => .error e
  | .ok (t, some _) => .ok ({ c with token := t }, true)
  | .ok (t, none) => .ok ({ c with token := t }, false)

/-- Contract::update_metadata of src/src/lib.rs: assert_one_yocto; the
caller must be the owner ("Not allow"); the new metadata must be valid;
the decimals must be unchanged ("Can't change decimals"); then the
metadata is replaced.  The stored metadata is a LazyOption whose unwrap
on an absent value is modelled by MetadataMissing. -/
def update_metadata (c : Contract) (predecessor : AccountId) (deposit : Nat)
    (m : FTMetadata) : Except FTError Contract :=
  if deposit ≠ 1 then .error .InsufficientAuthorizationPayment
  else if c.owner_id ≠ predecessor then .error .NotOwner
  else if ¬ assertValid m then .error .InvalidMetadata
  else
    match c.metadata with
    | none => .error .MetadataMissing
    | some cur =>
      if cur.decimals = m.decimals then .ok { c with metadata := some m }
      else .error .DecimalsImmutable

/-- Contract::update_owner of src/src/lib.rs: assert_one_yocto; the
caller must be the current owner ("Owner's method"); the new owner must
be non-empty ("New owner cannot be empty"); then the owner is replaced
and true returned. -/
def update_owner (c : Contract) (predecessor : AccountId) (deposit : Nat)
    (new_owner : AccountId) : Except FTError (Contract × Bool) :=
  if deposit ≠ 1 then .error .InsufficientAuthorizationPayment
  else if predecessor ≠ c.owner_id then .error .NotOwner
  else if new_owner.isEmpty then .error .InvalidOwner
  else .ok ({ c with owner_id := new_owner }, true)

/-- Contract::ft_metadata of src/src/lib.rs: the stored metadata, or the
well-defined empty default when absent. -/
def ft_metadata (c : Contract) : FTMetadata :=
  c.metadata.getD ⟨FT_METADATA_SPEC, "", "", none, none, none, 0⟩

/-- Contract::new of src/src/lib.rs: requires valid metadata, registers
the owner and mints the full initial supply to it (the supply argument
is a u128 on the wire, hence below U128LIMIT by construction). -/
def Contract.new (owner : AccountId) (supply : Nat) (m : FTMetadata) :
    Option Contract :=
  if assertValid m then
    some ⟨owner, ⟨[(owner, supply)], supply⟩, some m⟩
  else none

/-- One externally invokable operation of the contract, with its caller
(predecessor account), attached deposit in yoctoNEAR and arguments.
The two turns of a transfer-call appear as separate operations: the
initiating turn (opFtTransferCall, whose ledger effect is that of a
plain transfer) and the resolving turn (opFtResolveTransfer, invoked by
the host with the receiver-side outcome). -/
inductive Op where
  | opFtTransfer (predecessor : AccountId) (deposit : Nat)
      (receiver : AccountId) (amount : Nat)
  | opFtTransferCall (predecessor : AccountId) (deposit : Nat)
      (receiver : AccountId) (amount : Nat)
  | opFtResolveTransfer (sender receiver : AccountId) (amount : Nat)
      (reported : Option Nat)
  | opStorageDeposit (predecessor : AccountId) (attached : Nat)
      (account : Option AccountId) (regOnly : Option Bool)
  | opStorageWithdraw (predecessor : AccountId) (deposit : Nat)
      (amount : Option Nat)
  | opStorageUnregister (predecessor : AccountId) (deposit : Nat)
      (force : Option Bool)
  | opUpdateMetadata (predecessor : AccountId) (deposit : Nat) (m : FTMetadata)
  | opUpdateOwner (predecessor : AccountId) (deposit : Nat)
      (newOwner : AccountId)
deriving Repr

/-- Effect of one successful operation: the successor contract state and
the amount of tokens burned by that operation (0 for all operations but
forced unregistration and transfer-call resolution).  A failed operation
yields none: the host rolls its writes back, so a failing call does not
change the persisted state. -/
def step (fee : Nat) (c : Contract) : Op → Option (Contract × Nat)
  | .opFtTransfer p d r a =>
    match ft_transfer c p d r a with
    | .error _ => none
    | .ok c' => some (c', 0)
  | .opFtTransferCall p d r a =>
    match ft_transfer c p d r a with
    | .error _ => none
    | .ok c' => some (c', 0)
  | .opFtResolveTransfer s r a rep =>
    match internal_ft_resolve_transfer c.token s r a rep with
    | .error _ => none
    | .ok (t, _, burned) => some ({ c with token := t }, burned)
  | .opStorageDeposit p att acc ro =>
    match storage_deposit c.token fee p att acc ro with
    | .error _ => none
    | .ok (t, _, _) => some ({ c with token := t }, 0)
  | .opStorageWithdraw p d a =>
    match storage_withdraw c.token fee p d a with
    | .error _ => none
    | .ok _ => some (c, 0)
  | .opStorageUnregister p d f =>
    match internal_storage_unregister c.token p d f with
    | .error _ => none
    | .ok (t, res) => some ({ c with token := t }, (res.map Prod.snd).getD 0)
  | .opUpdateMetadata p d m =>
    match update_metadata c p d m with
    | .error _ => none
    | .ok c' => some (c', 0)
  | .opUpdateOwner p d nw =>
    match update_owner c p d nw with
    | .error _ => none
    | .ok (c', _) => some (c', 0)

/-- Runs a sequence of operations from a state, accumulating the total
burned amount; none as soon as one operation fails. -/
def run (fee : Nat) (c : Contract) : List Op → Option (Contract × Nat)
  | [] => some (c, 0)
  | op :: ops =>
    match step fee c op with
    | none => none
    | some (c', b) =>
      match run fee c' ops with
      | none => none
      | some (c'', btail) => some (c'', b + btail)

theorem internal_withdraw_ok {st : FungibleToken} {a : AccountId} {amt : Nat}
    {st' : FungibleToken} (h : internal_withdraw st a amt = .ok st') :
    ∃ b, getBal st.accounts a = some b ∧ amt ≤ b ∧ amt ≤ st.total_supply ∧
      st' = ⟨setBal st.accounts a (b - amt), st.total_supply - amt⟩ := by
  unfold internal_withdraw at h
  cases hb : getBal st.accounts a with
  | none =>
    rw [hb] at h
    cases h
  | some b =>
    rw [hb] at h
    by_cases h1 : amt ≤ b
    · by_cases h2 : amt ≤ st.total_supply
      · simp [h1, h2] at h
        exact ⟨b, rfl, h1, h2, h.symm⟩
      · simp [h1, h2] at h
    · simp [h1] at h

theorem internal_deposit_ok {st : FungibleToken} {a : AccountId} {amt : Nat}
    {st' : FungibleToken} (h : internal_deposit st a amt = .ok st') :
    ∃ b, getBal st.accounts a = some b ∧
      st' = ⟨setBal st.accounts a (b + amt), st.total_supply + amt⟩ := by
  unfold internal_deposit at h
  cases hb : getBal st.accounts a with
  | none =>
    rw [hb] at h
    cases h
  | some b =>
    rw [hb] at h
    by_cases h1 : b + amt < U128LIMIT
    · by_cases h2 : st.total_supply + amt < U128LIMIT
      · simp [h1, h2] at h
        exact ⟨b, rfl, h.symm⟩
      · simp [h1, h2] at h
    · simp [h1] at h

theorem internal_transfer_ok {st : FungibleToken} {s r : AccountId}
    {amt : Nat} {st' : FungibleToken}
    (h : internal_transfer st s r amt = .ok st') :
    s ≠ r ∧ amt ≠ 0 ∧ ∃ st1, internal_withdraw st s amt = .ok st1 ∧
      internal_deposit st1 r amt = .ok st' := by
  unfold internal_transfer at h
  by_cases hsr : s = r
  · simp [hsr] at h
  · by_cases h0 : amt = 0
    · simp [hsr, h0] at h
    · simp only [if_neg hsr, if_neg h0] at h
      cases hw : internal_withdraw st s amt with
      | error e =>
        rw [hw] at h
        cases h
      | ok st1 =>
        rw [hw] at h
        exact ⟨hsr, h0, st1, rfl, h⟩

theorem internal_withdraw_props {st : FungibleToken} {a : AccountId}
    {amt : Nat} {st' : FungibleToken} (hnd : NodupKeys st.accounts)
    (h : internal_withdraw st a amt = .ok st') :
    NodupKeys st'.accounts ∧ sumBal st'.accounts + amt = sumBal st.accounts ∧
      st'.total_supply + amt = st.total_supply := by
  obtain ⟨b, hb, h1, h2, rfl⟩ := internal_withdraw_ok h
  refine ⟨nodup_setBal _ _ _ hnd, ?_, ?_⟩
  · show sumBal (setBal st.accounts a (b - amt)) + amt = sumBal st.accounts
    have := sumBal_setBal (b - amt) hb
    omega
  · show (st.total_supply - amt) + amt = st.total_supply
    omega

theorem internal_deposit_props {st : FungibleToken} {a : AccountId}
    {amt : Nat} {st' : FungibleToken} (hnd : NodupKeys st.accounts)
    (h : internal_deposit st a amt = .ok st') :
    NodupKeys st'.accounts ∧ sumBal st'.accounts = sumBal st.accounts + amt ∧
      st'.total_supply = st.total_supply + amt := by
  obtain ⟨b, hb, rfl⟩ := internal_deposit_ok h
  refine ⟨nodup_setBal _ _ _ hnd, ?_, rfl⟩
  show sumBal (setBal st.accounts a (b + amt)) = sumBal st.accounts + amt
  have := sumBal_setBal (b + amt) hb
  omega

theorem internal_transfer_props {st : FungibleToken} {s r : AccountId}
    {amt : Nat} {st' : FungibleToken} (hnd : NodupKeys st.accounts)
    (h : internal_transfer st s r amt = .ok st') :
    NodupKeys st'.accounts ∧ sumBal st'.accounts = sumBal st.accounts ∧
      st'.total_supply = st.total_supply := by
  obtain ⟨-, -, st1, hw, hd⟩ := internal_transfer_ok h
  obtain ⟨hnd1, hsum1, hts1⟩ := internal_withdraw_props hnd hw
  obtain ⟨hnd2, hsum2, hts2⟩ := internal_deposit_props hnd1 hd
  exact ⟨hnd2, by omega, by omega⟩

theorem resolve_master {st : FungibleToken} {s r : AccountId} {amount : Nat}
    {rep : Option Nat} {st' : FungibleToken} {used burned : Nat}
    (hnd : NodupKeys st.accounts)
    (h : internal_ft_resolve_transfer st s r amount rep = .ok (st', used, burned)) :
    NodupKeys st'.accounts ∧
    sumBal st'.accounts + burned = sumBal st.accounts ∧
    st'.total_supply + burned = st.total_supply ∧
    burned ≤ ft_balance_of st r ∧
    (burned ≠ 0 → getBal st.accounts s = none ∧ used = amount) ∧
    (s ≠ r → ft_balance_of st' s ≤ ft_balance_of st s + ft_balance_of st r) := by
  unfold internal_ft_resolve_transfer at h
  by_cases hu : unusedOf amount rep = 0
  · simp only [if_pos hu] at h
    obtain ⟨rfl, rfl, rfl⟩ : st = st' ∧ amount = used ∧ 0 = burned := by
      simpa using h
    exact ⟨hnd, by simp, by simp, by simp, by simp, fun _ => Nat.le_add_right _ _⟩
  · simp only [if_neg hu] at h
    by_cases hr : (getBal st.accounts r).getD 0 = 0
    · simp only [if_pos hr] at h
      obtain ⟨rfl, rfl, rfl⟩ : st = st' ∧ amount = used ∧ 0 = burned := by
        simpa using h
      exact ⟨hnd, by simp, by simp, by simp, by simp, fun _ => Nat.le_add_right _ _⟩
    · simp only [if_neg hr] at h
      obtain ⟨rb, hrb⟩ : ∃ rb, getBal st.accounts r = some rb := by
        cases hg : getBal st.accounts r with
        | none => simp [hg] at hr
        | some rb => exact ⟨rb, rfl⟩
      rw [hrb] at h
      simp only [Option.getD_some] at h
      have hrbpos : rb ≠ 0 := by
        rw [hrb] at hr
        simpa using hr
      have hfr : ft_balance_of st r = rb := by
        simp [ft_balance_of, hrb]
      have hrefle : min rb (unusedOf amount rep) ≤ rb := Nat.min_le_left _ _
      have hndl1 : NodupKeys (setBal st.accounts r (rb - min rb (unusedOf amount rep))) :=
        nodup_setBal _ _ _ hnd
      have hsuml1 := sumBal_setBal (rb - min rb (unusedOf amount rep)) hrb
      cases hs : getBal (setBal st.accounts r (rb - min rb (unusedOf amount rep))) s with
      | some sb =>
        rw [hs] at h
        by_cases hov : sb + min rb (unusedOf amount rep) < U128LIMIT
        · simp only [if_pos hov] at h
          obtain ⟨hst, rfl, rfl⟩ :
              (⟨setBal (setBal st.accounts r (rb - min rb (unusedOf amount rep))) s
                  (sb + min rb (unusedOf amount rep)), st.total_supply⟩ : FungibleToken) = st' ∧
                amount - min rb (unusedOf amount rep) = used ∧ 0 = burned := by
            simpa using h
          subst hst
          have hsum2 := sumBal_setBal (sb + min rb (unusedOf amount rep)) hs
          refine ⟨nodup_setBal _ _ _ hndl1, by simp; omega, by simp, by simp, by simp, ?_⟩
          intro hsr
          have hgs : getBal (setBal st.accounts r (rb - min rb (unusedOf amount rep))) s
              = getBal st.accounts s := getBal_setBal_ne _ _ _ _ hsr
          rw [hs] at hgs
          have hfs : ft_balance_of st s = sb := by
            simp [ft_balance_of, ← hgs]
          simp only [ft_balance_of, getBal_setBal_self, Option.getD_some]
          rw [← hgs, hrb]
          simp only [Option.getD_some]
          omega
        · simp [hov] at h
      | none =>
        rw [hs] at h
        by_cases hts : min rb (unusedOf amount rep) ≤ st.total_supply
        · simp only [if_pos hts] at h
          obtain ⟨hst, rfl, rfl⟩ :
              (⟨setBal st.accounts r (rb - min rb (unusedOf amount rep)),
                  st.total_supply - min rb (unusedOf amount rep)⟩ : FungibleToken) = st' ∧
                amount = used ∧ min rb (unusedOf amount rep) = burned := by
            simpa using h
          subst hst
          have hsr : s ≠ r := by
            intro he
            rw [he, getBal_setBal_self] at hs
            cases hs
          have hgs : getBal st.accounts s = none := by
            rw [← getBal_setBal_ne st.accounts r s (rb - min rb (unusedOf amount rep)) hsr]
            exact hs
          refine ⟨hndl1, by simp; omega, by simp; omega, by rw [hfr]; exact hrefle,
            fun _ => ⟨hgs, rfl⟩, ?_⟩
          intro _
          simp [ft_balance_of, hs]
        · simp [hts] at h

theorem storage_deposit_props {st : FungibleToken} {fee : Nat}
    {p : AccountId} {att : Nat} {acc : Option AccountId} {ro : Option Bool}
    {st' : FungibleToken} {refund : Nat} {sb : StorageBalance}
    (hnd : NodupKeys st.accounts)
    (h : storage_deposit st fee p att acc ro = .ok (st', refund, sb)) :
    NodupKeys st'.accounts ∧ sumBal st'.accounts = sumBal st.accounts ∧
      st'.total_supply = st.total_supply := by
  simp only [storage_deposit] at h
  cases hg : getBal st.accounts (acc.getD p) with
  | some b =>
    rw [hg] at h
    obtain ⟨rfl, -⟩ : st = st' ∧ att = refund ∧ (⟨fee, 0⟩ : StorageBalance) = sb := by
      simpa using h
    exact ⟨hnd, rfl, rfl⟩
  | none =>
    rw [hg] at h
    by_cases hf : att < fee
    · simp [hf] at h
    · simp only [if_neg hf] at h
      obtain ⟨hst, -⟩ :
          (⟨setBal st.accounts (acc.getD p) 0, st.total_supply⟩ : FungibleToken) = st' ∧
            att - fee = refund ∧ (⟨fee, 0⟩ : StorageBalance) = sb := by
        simpa using h
      subst hst
      refine ⟨nodup_setBal _ _ _ hnd, ?_, rfl⟩
      show sumBal (setBal st.accounts (acc.getD p) 0) = sumBal st.accounts
      have := sumBal_setBal_none 0 hg
      omega

theorem storage_unregister_props {st : FungibleToken} {p : AccountId}
    {d : Nat} {f : Option Bool} {st' : FungibleToken}
    {res : Option (AccountId × Nat)} (hnd : NodupKeys st.accounts)
    (hts : st.total_supply = sumBal st.accounts)
    (h : internal_storage_unregister st p d f = .ok (st', res)) :
    NodupKeys st'.accounts ∧
      sumBal st'.accounts + (res.map Prod.snd).getD 0 = sumBal st.accounts ∧
      st'.total_supply + (res.map Prod.snd).getD 0 = st.total_supply := by
  unfold internal_storage_unregister at h
  by_cases hd : d ≠ 1
  · simp [hd] at h
  · simp only [if_neg hd] at h
    cases hg : getBal st.accounts p with
    | none =>
      rw [hg] at h
      obtain ⟨rfl, rfl⟩ : st = st' ∧ (none : Option (AccountId × Nat)) = res := by
        simpa using h
      exact ⟨hnd, by simp, by simp⟩
    | some balance =>
      rw [hg] at h
      by_cases hforce : balance = 0 ∨ f.getD false
      · simp only [if_pos hforce] at h
        obtain ⟨hst, rfl⟩ :
            (⟨delBal st.accounts p, st.total_supply - balance⟩ : FungibleToken) = st' ∧
              (some (p, balance) : Option (AccountId × Nat)) = res := by
          simpa using h
        subst hst
        have hsum := sumBal_delBal hg
        have hle : balance ≤ sumBal st.accounts := getBal_le_sumBal hg
        refine ⟨nodup_delBal _ _ hnd, ?_, ?_⟩
        · simpa using hsum
        · show (st.total_supply - balance) + balance = st.total_supply
          omega
      · simp [hforce] at h

theorem ft_transfer_ok {c : Contract} {p : AccountId} {d : Nat}
    {r : AccountId} {a : Nat} {c' : Contract}
    (h : ft_transfer c p d r a = .ok c') :
    d = 1 ∧ internal_transfer c.token p r a = .ok c'.token ∧
      c'.owner_id = c.owner_id ∧ c'.metadata = c.metadata := by
  unfold ft_transfer at h
  by_cases hd : d ≠ 1
  · simp [hd] at h
  · simp only [if_neg hd] at h
    cases ht : internal_transfer c.token p r a with
    | error e =>
      rw [ht] at h
      cases h
    | ok t =>
      rw [ht] at h
      obtain rfl : ({ c with token := t } : Contract) = c' := by
        simpa using h
      exact ⟨by omega, rfl, rfl, rfl⟩

theorem update_metadata_ok {c : Contract} {p : AccountId} {d : Nat}
    {m : FTMetadata} {c' : Contract}
    (h : update_metadata c p d m = .ok c') :
    d = 1 ∧ c.owner_id = p ∧ assertValid m = true ∧
      ∃ cur, c.metadata = some cur ∧ cur.decimals = m.decimals ∧
        c' = { c with metadata := some m } := by
  unfold update_metadata at h
  by_cases hd : d ≠ 1
  · simp [hd] at h
  · simp only [if_neg hd] at h
    by_cases howner : c.owner_id ≠ p
    · simp [howner] at h
    · simp only [if_neg howner] at h
      by_cases hv : assertValid m
      · cases hm : c.metadata with
        | none =>
          rw [hm] at h
          simp [hv] at h
        | some cur =>
          rw [hm] at h
          by_cases hdec : cur.decimals = m.decimals
          · simp only [hv, hdec, not_true, if_false, if_pos] at h
            obtain rfl : ({ c with metadata := some m } : Contract) = c' := by
              simpa [hv, hdec] using h
            exact ⟨by omega, by simpa using howner, hv, cur, rfl, hdec, rfl⟩
          · simp [hv, hdec] at h
      · simp [hv] at h

theorem update_owner_ok {c : Contract} {p : AccountId} {d : Nat}
    {nw : AccountId} {c' : Contract} {res : Bool}
    (h : update_owner c p d nw = .ok (c', res)) :
    d = 1 ∧ p = c.owner_id ∧ nw.isEmpty = false ∧
      c' = { c with owner_id := nw } ∧ res = true := by
  unfold update_owner at h
  by_cases hd : d ≠ 1
  · simp [hd] at h
  · simp only [if_neg hd] at h
    by_cases howner : p ≠ c.owner_id
    · simp [howner] at h
    · simp only [if_neg howner] at h
      by_cases hemp : nw.isEmpty = true
      · simp [hemp] at h
      · have hemp' : nw.isEmpty = false := by simpa using hemp
        obtain ⟨rfl, rfl⟩ : ({ c with owner_id := nw } : Contract) = c' ∧ true = res := by
          simpa [hemp'] using h
        exact ⟨by omega, by simpa using howner, hemp', rfl, rfl⟩

theorem step_props {fee : Nat} {c : Contract} {op : Op} {c' : Contract}
    {b : Nat} (hwf : Wf c.token) (h : step fee c op = some (c', b)) :
    Wf c'.token ∧ sumBal c'.token.accounts + b = sumBal c.token.accounts ∧
      c'.token.total_supply + b = c.token.total_supply ∧
      (∀ m, c.metadata = some m →
        ∃ m', c'.metadata = some m' ∧ m'.decimals = m.decimals) := by
  obtain ⟨hnd, hts⟩ := hwf
  cases op with
  | opFtTransfer p d r a =>
    simp only [step] at h
    cases htr : ft_transfer c p d r a with
    | error e =>
      rw [htr] at h
      cases h
    | ok c1 =>
      rw [htr] at h
      obtain ⟨rfl, rfl⟩ : c1 = c' ∧ 0 = b := by simpa using h
      obtain ⟨-, ht, -, hmd⟩ := ft_transfer_ok htr
      obtain ⟨hnd', hsum', hts'⟩ := internal_transfer_props hnd ht
      exact ⟨⟨hnd', by omega⟩, by omega, by omega,
        fun m hm => ⟨m, by rw [hmd]; exact hm, rfl⟩⟩
  | opFtTransferCall p d r a =>
    simp only [step] at h
    cases htr : ft_transfer c p d r a with
    | error e =>
      rw [htr] at h
      cases h
    | ok c1 =>
      rw [htr] at h
      obtain ⟨rfl, rfl⟩ : c1 = c' ∧ 0 = b := by simpa using h
      obtain ⟨-, ht, -, hmd⟩ := ft_transfer_ok htr
      obtain ⟨hnd', hsum', hts'⟩ := internal_transfer_props hnd ht
      exact ⟨⟨hnd', by omega⟩, by omega, by omega,
        fun m hm => ⟨m, by rw [hmd]; exact hm, rfl⟩⟩
  | opFtResolveTransfer s r a rep =>
    simp only [step] at h
    cases hres : internal_ft_resolve_transfer c.token s r a rep with
    | error e =>
      rw [hres] at h
      cases h
    | ok out =>
      obtain ⟨t, used, burned⟩ := out
      rw [hres] at h
      obtain ⟨rfl, rfl⟩ : ({ c with token := t } : Contract) = c' ∧ burned = b := by
        simpa using h
      obtain ⟨hnd', hsum', hts', -⟩ := resolve_master hnd hres
      refine ⟨⟨hnd', ?_⟩, ?_, ?_, fun m hm => ⟨m, hm, rfl⟩⟩
      · show t.total_supply = sumBal t.accounts
        omega
      · show sumBal t.accounts + burned = sumBal c.token.accounts
        omega
      · show t.total_supply + burned = c.token.total_supply
        omega
  | opStorageDeposit p att acc ro =>
    simp only [step] at h
    cases hsd : storage_deposit c.token fee p att acc ro with
    | error e =>
      rw [hsd] at h
      cases h
    | ok out =>
      obtain ⟨t, refund, sb⟩ := out
      rw [hsd] at h
      obtain ⟨rfl, rfl⟩ : ({ c with token := t } : Contract) = c' ∧ 0 = b := by
        simpa using h
      obtain ⟨hnd', hsum', hts'⟩ := storage_deposit_props hnd hsd
      refine ⟨⟨hnd', ?_⟩, ?_, ?_, fun m hm => ⟨m, hm, rfl⟩⟩
      · show t.total_supply = sumBal t.accounts
        omega
      · show sumBal t.accounts + 0 = sumBal c.token.accounts
        omega
      · show t.total_supply + 0 = c.token.total_supply
        omega
  | opStorageWithdraw p d a =>
    simp only [step] at h
    cases hsw : storage_withdraw c.token fee p d a with
    | error e =>
      rw [hsw] at h
      cases h
    | ok sb =>
      rw [hsw] at h
      obtain ⟨rfl, rfl⟩ : c = c' ∧ 0 = b := by simpa using h
      exact ⟨⟨hnd, hts⟩, by omega, by omega, fun m hm => ⟨m, hm, rfl⟩⟩
  | opStorageUnregister p d f =>
    simp only [step] at h
    cases hsu : internal_storage_unregister c.token p d f with
    | error e =>
      rw [hsu] at h
      cases h
    | ok out =>
      obtain ⟨t, res⟩ := out
      rw [hsu] at h
      obtain ⟨rfl, rfl⟩ :
          ({ c with token := t } : Contract) = c' ∧ (res.map Prod.snd).getD 0 = b := by
        simpa using h
      obtain ⟨hnd', hsum', hts'⟩ := storage_unregister_props hnd hts hsu
      refine ⟨⟨hnd', ?_⟩, ?_, ?_, fun m hm => ⟨m, hm, rfl⟩⟩
      · show t.total_supply = sumBal t.accounts
        omega
      · show sumBal t.accounts + (res.map Prod.snd).getD 0 = sumBal c.token.accounts
        omega
      · show t.total_supply + (res.map Prod.snd).getD 0 = c.token.total_supply
        omega
  | opUpdateMetadata p d m =>
    simp only [step] at h
    cases hum : update_metadata c p d m with
    | error e =>
      rw [hum] at h
      cases h
    | ok c1 =>
      rw [hum] at h
      obtain ⟨rfl, rfl⟩ : c1 = c' ∧ 0 = b := by simpa using h
      obtain ⟨-, -, -, cur, hcur, hdec, rfl⟩ := update_metadata_ok hum
      refine ⟨⟨hnd, hts⟩, ?_, ?_, ?_⟩
      · show sumBal c.token.accounts + 0 = sumBal c.token.accounts
        omega
      · show c.token.total_supply + 0 = c.token.total_supply
        omega
      intro m0 hm0
      refine ⟨m, rfl, ?_⟩
      rw [hcur] at hm0
      obtain rfl : cur = m0 := by simpa using hm0
      exact hdec.symm
  | opUpdateOwner p d nw =>
    simp only [step] at h
    cases huo : update_owner c p d nw with
    | error e =>
      rw [huo] at h
      cases h
    | ok out =>
      obtain ⟨c1, res⟩ := out
      rw [huo] at h
      obtain ⟨rfl, rfl⟩ : c1 = c' ∧ 0 = b := by simpa using h
      obtain ⟨-, -, -, rfl, -⟩ := update_owner_ok huo
      refine ⟨⟨hnd, hts⟩, ?_, ?_, fun m hm => ⟨m, hm, rfl⟩⟩
      · show sumBal c.token.accounts + 0 = sumBal c.token.accounts
        omega
      · show c.token.total_supply + 0 = c.token.total_supply
        omega

theorem run_props {fee : Nat} {ops : List Op} {c : Contract} {c' : Contract}
    {b : Nat} (hwf : Wf c.token) (h : run fee c ops = some (c', b)) :
    Wf c'.token ∧ sumBal c'.token.accounts + b = sumBal c.token.accounts ∧
      c'.token.total_supply + b = c.token.total_supply ∧
      (∀ m, c.metadata = some m →
        ∃ m', c'.metadata = some m' ∧ m'.decimals = m.decimals) := by
  induction ops generalizing c b with
  | nil =>
    obtain ⟨rfl, rfl⟩ : c = c' ∧ 0 = b := by simpa [run] using h
    exact ⟨hwf, by omega, by omega, fun m hm => ⟨m, hm, rfl⟩⟩
  | cons op ops ih =>
    simp only [run] at h
    cases hs : step fee c op with
    | none =>
      rw [hs] at h
      cases h
    | some out =>
      obtain ⟨c1, b1⟩ := out
      simp only [hs] at h
      cases hr : run fee c1 ops with
      | none =>
        rw [hr] at h
        cases h
      | some out2 =>
        obtain ⟨c2, b2⟩ := out2
        rw [hr] at h
        obtain ⟨rfl, rfl⟩ : c2 = c' ∧ b1 + b2 = b := by simpa using h
        obtain ⟨hwf1, hsum1, hts1, hmd1⟩ := step_props hwf hs
        obtain ⟨hwf2, hsum2, hts2, hmd2⟩ := ih hwf1 hr
        refine ⟨hwf2, by omega, by omega, ?_⟩
        intro m hm
        obtain ⟨m1, hm1, hd1⟩ := hmd1 m hm
        obtain ⟨m2, hm2, hd2⟩ := hmd2 m1 hm1
        exact ⟨m2, hm2, by omega⟩

/-- C1 counterexample: at resolution of a transfer-call of 10 tokens from
"s" to "r" where "r" declared everything unused but only holds 3 (it
forwarded 7 to "x"), the code refunds the 3 it can back, reports
used_amount 7 and burns nothing, leaving the total supply at 10; the
claim's prediction (total supply decremented by the un-refundable
portion 7, hence 3, with used_amount equal to the full amount 10 and a
burn of 7) is false. -/
theorem C1_resolve_burn_counterexample :
    (internal_ft_resolve_transfer ⟨[("s", 0), ("r", 3), ("x", 7)], 10⟩
        "s" "r" 10 (some 10)).toOption.map
        (fun x => (x.1.total_supply, x.2.1, x.2.2)) = some (10, 7, 0) ∧
    ¬ ((internal_ft_resolve_transfer ⟨[("s", 0), ("r", 3), ("x", 7)], 10⟩
        "s" "r" 10 (some 10)).toOption.map
        (fun x => (x.1.total_supply, x.2.1, x.2.2)) = some (3, 10, 7)) := by
  exact ⟨by rfl, by decide⟩

/-- C1 (amended): at resolution of a transfer-call, the refund is capped
at the receiver's current balance, so the sender is re-credited at most
what the receiver still holds and is never credited tokens the receiver
cannot back; the declared-but-unreturnable shortfall is not burned but
counted as used; tokens are burned only when the sender's account was
deleted in the interim, the burn is bounded by the receiver's balance,
the total supply is decremented by exactly the burned amount, and in the
burn case used_amount equals the full transferred amount.  Conservation
(sum of balances plus burn) holds across resolution. -/
theorem C1_resolve_refund_capped (st : FungibleToken) (s r : AccountId)
    (amount : Nat) (rep : Option Nat) (st' : FungibleToken)
    (used burned : Nat) (hwf : Wf st) (hsr : s ≠ r)
    (h : internal_ft_resolve_transfer st s r amount rep = .ok (st', used, burned)) :
    ft_balance_of st' s ≤ ft_balance_of st s + ft_balance_of st r ∧
    burned ≤ ft_balance_of st r ∧
    st'.total_supply + burned = st.total_supply ∧
    sumBal st'.accounts + burned = sumBal st.accounts ∧
    (burned ≠ 0 → getBal st.accounts s = none ∧ used = amount) := by
  obtain ⟨hA, hB, hC, hD, hE, hF⟩ := resolve_master hwf.1 h
  exact ⟨hF hsr, hD, hC, hB, hE⟩

/-- Witness for C1 (amended) at a concrete input: state
s:0, r:5, x:5, supply 10; resolving a transfer of 10 with 4 declared
unused re-credits the sender 4. -/
theorem C1_resolve_refund_capped_witness :
    ft_balance_of ⟨[("s", 4), ("r", 1), ("x", 5)], 10⟩ "s"
      ≤ ft_balance_of ⟨[("s", 0), ("r", 5), ("x", 5)], 10⟩ "s"
        + ft_balance_of ⟨[("s", 0), ("r", 5), ("x", 5)], 10⟩ "r" :=
  (C1_resolve_refund_capped ⟨[("s", 0), ("r", 5), ("x", 5)], 10⟩ "s" "r" 10
    (some 4) ⟨[("s", 4), ("r", 1), ("x", 5)], 10⟩ 6 0
    ⟨by decide, by decide⟩ (by decide) (by rfl)).1

/-- C2: conservation: after any sequence of successful operations from
construction, the sum of all account balances plus the cumulative burned
amount equals the initial total supply (the only mint), the recorded
total supply plus the cumulative burn equals the initial supply, and no
single successful operation from a well-formed state ever increments the
recorded total supply. -/
theorem C2_conservation (fee : Nat) (owner : AccountId) (supply : Nat)
    (m : FTMetadata) (c0 : Contract)
    (hnew : Contract.new owner supply m = some c0)
    (ops : List Op) (c' : Contract) (burned : Nat)
    (h : run fee c0 ops = some (c', burned)) :
    sumBal c'.token.accounts + burned = supply ∧
    c'.token.total_supply + burned = supply ∧
    (∀ c1 op c2 bop, Wf c1.token → step fee c1 op = some (c2, bop) →
      c2.token.total_supply ≤ c1.token.total_supply) := by
  have hc0 : c0 = ⟨owner, ⟨[(owner, supply)], supply⟩, some m⟩ := by
    unfold Contract.new at hnew
    by_cases hv : assertValid m
    · rw [if_pos hv] at hnew
      simpa using hnew.symm
    · rw [if_neg hv] at hnew
      cases hnew
  have hwf : Wf c0.token := by
    rw [hc0]
    exact ⟨by simp [NodupKeys], by simp⟩
  obtain ⟨hwf', hsum, hts, -⟩ := run_props hwf h
  have hsum0 : sumBal c0.token.accounts = supply := by
    rw [hc0]
    simp
  have hts0 : c0.token.total_supply = supply := by
    rw [hc0]
  refine ⟨by omega, by omega, ?_⟩
  intro c1 op c2 bop hwf1 hstep
  obtain ⟨-, -, hts2, -⟩ := step_props hwf1 hstep
  omega

/-- Witness for C2 at a concrete trace: 100 minted to "o"; "u" registers,
receives 10, force-unregisters (burning 10); the final ledger holds 90
and 90 + 10 = 100. -/
theorem C2_conservation_witness : sumBal [("o", 90)] + 10 = 100 :=
  (C2_conservation 0 "o" 100 ⟨"ft-1.0.0", "T", "T", none, none, none, 24⟩
    ⟨"o", ⟨[("o", 100)], 100⟩, some ⟨"ft-1.0.0", "T", "T", none, none, none, 24⟩⟩
    (by rfl)
    [.opStorageDeposit "u" 0 none none, .opFtTransfer "o" 1 "u" 10,
      .opStorageUnregister "u" 1 (some true)]
    ⟨"o", ⟨[("o", 90)], 90⟩, some ⟨"ft-1.0.0", "T", "T", none, none, none, 24⟩⟩
    10 (by rfl)).1

/-- C3: with one yoctoNEAR attached, a registered caller with balance
B > 0 calling storage_unregister(force=true) gets true, its registration
is destroyed (storage_balance_of none), its ledger entry is removed
(ft_balance_of 0) and the total supply drops by exactly B; an
unregistered caller gets false with no error and no state change. -/
theorem C3_storage_unregister_force (c : Contract) (caller : AccountId)
    (fee : Nat) (f : Option Bool) (hwf : Wf c.token) :
    (∀ B, getBal c.token.accounts caller = some B → 0 < B →
      storage_unregister c caller 1 (some true) =
        .ok ({ c with token := ⟨delBal c.token.accounts caller,
            c.token.total_supply - B⟩ }, true) ∧
      internal_storage_balance_of
        ⟨delBal c.token.accounts caller, c.token.total_supply - B⟩ fee caller
          = none ∧
      ft_balance_of
        ⟨delBal c.token.accounts caller, c.token.total_supply - B⟩ caller = 0 ∧
      (c.token.total_supply - B) + B = c.token.total_supply) ∧
    (getBal c.token.accounts caller = none →
      storage_unregister c caller 1 f = .ok (c, false)) := by
  constructor
  · intro B hB hpos
    have hdel := getBal_delBal_self c.token.accounts caller hwf.1
    refine ⟨?_, ?_, ?_, ?_⟩
    · unfold storage_unregister internal_storage_unregister
      simp [hB]
    · unfold internal_storage_balance_of
      rw [hdel]
    · simp [ft_balance_of, hdel]
    · have hle : B ≤ sumBal c.token.accounts := getBal_le_sumBal hB
      have := hwf.2
      omega
  · intro hnone
    unfold storage_unregister internal_storage_unregister
    simp [hnone]

/-- Witness for C3 at a concrete state: "u" holds 10 of supply 100 and
force-unregisters. -/
theorem C3_storage_unregister_force_witness :
    storage_unregister ⟨"o", ⟨[("o", 90), ("u", 10)], 100⟩, none⟩ "u" 1
        (some true) =
      .ok (⟨"o", ⟨[("o", 90)], 90⟩, none⟩, true) := by
  have := ((C3_storage_unregister_force
    ⟨"o", ⟨[("o", 90), ("u", 10)], 100⟩, none⟩ "u" 0 none
    ⟨by decide, by decide⟩).1 10 (by rfl) (by decide)).1
  exact this

/-- C4: with one yoctoNEAR attached, ft_transfer fails with
InvalidRequest when sender equals receiver or the amount is zero, with
NotRegistered when the sender (or, for an otherwise-fine call, the
receiver) has no storage registration, and with InsufficientBalance when
the sender's balance is below the amount; every failure is an
Except.error carrying no successor state, so balances and the total
supply are untouched (the host rolls an aborted call back). -/
theorem C4_ft_transfer_errors (c : Contract) (s r : AccountId)
    (amount : Nat) (hwf : Wf c.token) :
    ((s = r ∨ amount = 0) →
      ft_transfer c s 1 r amount = .error .InvalidRequest) ∧
    (s ≠ r → amount ≠ 0 → getBal c.token.accounts s = none →
      ft_transfer c s 1 r amount = .error .NotRegistered) ∧
    (∀ bs, s ≠ r → amount ≠ 0 → getBal c.token.accounts s = some bs →
      bs < amount →
      ft_transfer c s 1 r amount = .error .InsufficientBalance) ∧
    (∀ bs, s ≠ r → amount ≠ 0 → getBal c.token.accounts s = some bs →
      amount ≤ bs → getBal c.token.accounts r = none →
      ft_transfer c s 1 r amount = .error .NotRegistered) := by
  refine ⟨?_, ?_, ?_, ?_⟩
  · intro hor
    unfold ft_transfer internal_transfer
    rcases hor with hsr | h0
    · simp [hsr]
    · by_cases hsr : s = r <;> simp [hsr, h0]
  · intro hsr h0 hget
    unfold ft_transfer internal_transfer internal_withdraw
    simp [hsr, h0, hget]
  · intro bs hsr h0 hget hlt
    unfold ft_transfer internal_transfer internal_withdraw
    simp [hsr, h0, hget, show ¬ amount ≤ bs by omega]
  · intro bs hsr h0 hget hle hrnone
    have hts : amount ≤ c.token.total_supply := by
      have := getBal_le_sumBal hget
      have := hwf.2
      omega
    have hr1 : getBal (setBal c.token.accounts s (bs - amount)) r
        = getBal c.token.accounts r := getBal_setBal_ne _ _ _ _ (Ne.symm hsr)
    unfold ft_transfer internal_transfer internal_withdraw internal_deposit
    simp [hsr, h0, hget, hle, hts, hr1, hrnone]

/-- Witness for C4 at a concrete input: a self-transfer fails with
InvalidRequest. -/
theorem C4_ft_transfer_errors_witness :
    ft_transfer ⟨"o", ⟨[("o", 100)], 100⟩, none⟩ "o" 1 "o" 5 =
      .error .InvalidRequest :=
  (C4_ft_transfer_errors ⟨"o", ⟨[("o", 100)], 100⟩, none⟩ "o" "o" 5
    ⟨by decide, by decide⟩).1 (Or.inl rfl)

/-- C5: a successful ft_transfer of amount A between distinct registered
accounts debits the sender by exactly A, credits the receiver by exactly
A, leaves the total supply unchanged and leaves every other account's
balance unchanged. -/
theorem C5_ft_transfer_success (c c' : Contract) (s r : AccountId)
    (amount : Nat)
    (h : ft_transfer c s 1 r amount = .ok c') :
    ft_balance_of c'.token s + amount = ft_balance_of c.token s ∧
    ft_balance_of c'.token r = ft_balance_of c.token r + amount ∧
    c'.token.total_supply = c.token.total_supply ∧
    (∀ a, a ≠ s → a ≠ r → ft_balance_of c'.token a = ft_balance_of c.token a) := by
  obtain ⟨-, ht, -, -⟩ := ft_transfer_ok h
  obtain ⟨hsr, h0, st1, hw, hd⟩ := internal_transfer_ok ht
  obtain ⟨bs, hbs, hle, hts, rfl⟩ := internal_withdraw_ok hw
  obtain ⟨br, hbr, hdep⟩ := internal_deposit_ok hd
  have hbr0 : getBal c.token.accounts r = some br := by
    rw [← getBal_setBal_ne c.token.accounts s r (bs - amount) (Ne.symm hsr)]
    exact hbr
  rw [hdep]
  refine ⟨?_, ?_, ?_, ?_⟩
  · show (getBal (setBal (setBal c.token.accounts s (bs - amount)) r
        (br + amount)) s).getD 0 + amount = ft_balance_of c.token s
    rw [getBal_setBal_ne _ _ _ _ hsr, getBal_setBal_self]
    simp [ft_balance_of, hbs]
    omega
  · show (getBal (setBal (setBal c.token.accounts s (bs - amount)) r
        (br + amount)) r).getD 0 = ft_balance_of c.token r + amount
    rw [getBal_setBal_self]
    simp [ft_balance_of, hbr0]
  · show (c.token.total_supply - amount) + amount = c.token.total_supply
    omega
  · intro a has har
    show (getBal (setBal (setBal c.token.accounts s (bs - amount)) r
        (br + amount)) a).getD 0 = ft_balance_of c.token a
    rw [getBal_setBal_ne _ _ _ _ har, getBal_setBal_ne _ _ _ _ has]
    rfl

/-- Witness for C5 at a concrete input: "o" (100) sends 10 to "u" (0). -/
theorem C5_ft_transfer_success_witness :
    ft_balance_of (⟨"o", ⟨[("o", 90), ("u", 10)], 100⟩, none⟩ : Contract).token "o"
        + 10
      = ft_balance_of (⟨"o", ⟨[("o", 100), ("u", 0)], 100⟩, none⟩ : Contract).token "o" :=
  (C5_ft_transfer_success ⟨"o", ⟨[("o", 100), ("u", 0)], 100⟩, none⟩
    ⟨"o", ⟨[("o", 90), ("u", 10)], 100⟩, none⟩ "o" "u" 10 (by rfl)).1

/-- C6: storage_deposit for an already-registered account (default target,
any attached payment) is idempotent: the token state is returned
unchanged (no second record, registered deposit total still the flat
fee) and the whole attached payment is refunded. -/
theorem C6_storage_deposit_idempotent (st : FungibleToken) (fee : Nat)
    (p : AccountId) (attached : Nat) (ro : Option Bool) (b : Nat)
    (h : getBal st.accounts p = some b) :
    storage_deposit st fee p attached none ro = .ok (st, attached, ⟨fee, 0⟩) ∧
    internal_storage_balance_of st fee p = some ⟨fee, 0⟩ := by
  constructor
  · simp only [storage_deposit]
    simp [h]
  · unfold internal_storage_balance_of
    rw [h]

/-- Witness for C6 at a concrete input: "u" is registered, deposits 42
again, gets 42 back with nothing changed. -/
theorem C6_storage_deposit_idempotent_witness :
    storage_deposit ⟨[("o", 90), ("u", 10)], 100⟩ 5 "u" 42 none none =
      .ok (⟨[("o", 90), ("u", 10)], 100⟩, 42, ⟨5, 0⟩) :=
  (C6_storage_deposit_idempotent ⟨[("o", 90), ("u", 10)], 100⟩ 5 "u" 42 none
    10 (by rfl)).1

/-- C7: storage_balance_bounds has min equal to max, a registered
account's available storage balance is always zero, and (with one
yoctoNEAR attached) storage_withdraw fails with NotRegistered for an
unregistered caller, fails with ExcessWithdrawal for every positive
requested amount, and for an absent or zero amount is a no-op returning
the current storage balance. -/
theorem C7_storage_withdraw_policy (st : FungibleToken) (fee : Nat)
    (p : AccountId) :
    (storage_balance_bounds fee).max = some (storage_balance_bounds fee).min ∧
    (∀ sb, internal_storage_balance_of st fee p = some sb →
      sb.available = 0) ∧
    (getBal st.accounts p = none →
      ∀ amt, storage_withdraw st fee p 1 amt = .error .NotRegistered) ∧
    (∀ b n, getBal st.accounts p = some b → 0 < n →
      storage_withdraw st fee p 1 (some n) = .error .ExcessWithdrawal) ∧
    (∀ b, getBal st.accounts p = some b →
      storage_withdraw st fee p 1 none = .ok ⟨fee, 0⟩ ∧
      storage_withdraw st fee p 1 (some 0) = .ok ⟨fee, 0⟩) := by
  refine ⟨rfl, ?_, ?_, ?_, ?_⟩
  · intro sb hsb
    unfold internal_storage_balance_of at hsb
    cases hg : getBal st.accounts p with
    | none =>
      rw [hg] at hsb
      cases hsb
    | some b =>
      rw [hg] at hsb
      obtain rfl : (⟨fee, 0⟩ : StorageBalance) = sb := by simpa using hsb
      rfl
  · intro hnone amt
    unfold storage_withdraw internal_storage_balance_of
    simp [hnone]
  · intro b n hget hn
    unfold storage_withdraw internal_storage_balance_of
    simp [hget, hn]
  · intro b hget
    unfold storage_withdraw internal_storage_balance_of
    simp [hget]

/-- Witness for C7 at a concrete input: registered "u" requesting to
withdraw 1 fails with ExcessWithdrawal. -/
theorem C7_storage_withdraw_policy_witness :
    storage_withdraw ⟨[("u", 0)], 0⟩ 5 "u" 1 (some 1) =
      .error .ExcessWithdrawal :=
  (C7_storage_withdraw_policy ⟨[("u", 0)], 0⟩ 5 "u").2.2.2.1 0 1 (by rfl)
    (by decide)

/-- C8: with one yoctoNEAR attached, update_owner fails with NotOwner
when the caller is not the current owner and (for the owner) with
InvalidOwner when the new owner identifier is empty — both errors leave
the owner unchanged, an error carrying no successor state — and for the
owner with a non-empty new identifier it replaces the owner and returns
true. -/
theorem C8_update_owner_auth (c : Contract) (p nw : AccountId) :
    (p ≠ c.owner_id → update_owner c p 1 nw = .error .NotOwner) ∧
    (p = c.owner_id → nw.isEmpty = true →
      update_owner c p 1 nw = .error .InvalidOwner) ∧
    (p = c.owner_id → nw.isEmpty = false →
      update_owner c p 1 nw = .ok ({ c with owner_id := nw }, true)) := by
  refine ⟨?_, ?_, ?_⟩
  · intro hne
    unfold update_owner
    simp [hne]
  · intro heq hemp
    unfold update_owner
    simp [heq, hemp]
  · intro heq hemp
    unfold update_owner
    simp [heq, hemp]

/-- Witness for C8 at a concrete input: a non-owner caller fails with
NotOwner. -/
theorem C8_update_owner_auth_witness :
    update_owner ⟨"o", ⟨[("o", 100)], 100⟩, none⟩ "mallory" 1 "mallory" =
      .error .NotOwner :=
  (C8_update_owner_auth ⟨"o", ⟨[("o", 100)], 100⟩, none⟩ "mallory"
    "mallory").1 (by decide)

/-- C9: the decimals value is invariant after construction: along every
successful operation sequence from Contract::new the decimals returned
by ft_metadata stay those of the construction metadata; update_metadata
fails with NotOwner for a non-owner caller and with DecimalsImmutable
for the owner whenever the (valid) new metadata changes decimals, each
error leaving the metadata unchanged. -/
theorem C9_decimals_immutable (fee : Nat) (owner : AccountId) (supply : Nat)
    (m : FTMetadata) (c0 : Contract)
    (hnew : Contract.new owner supply m = some c0)
    (ops : List Op) (c' : Contract) (b : Nat)
    (h : run fee c0 ops = some (c', b)) :
    (ft_metadata c').decimals = m.decimals ∧
    (∀ c2 p d md, c2.owner_id ≠ p → d = 1 →
      update_metadata c2 p d md = .error .NotOwner) ∧
    (∀ c2 p md cur, c2.owner_id = p → c2.metadata = some cur →
      assertValid md = true → md.decimals ≠ cur.decimals →
      update_metadata c2 p 1 md = .error .DecimalsImmutable) := by
  have hc0 : c0 = ⟨owner, ⟨[(owner, supply)], supply⟩, some m⟩ := by
    unfold Contract.new at hnew
    by_cases hv : assertValid m
    · rw [if_pos hv] at hnew
      simpa using hnew.symm
    · rw [if_neg hv] at hnew
      cases hnew
  have hwf : Wf c0.token := by
    rw [hc0]
    exact ⟨by simp [NodupKeys], by simp⟩
  obtain ⟨-, -, -, hmd⟩ := run_props hwf h
  refine ⟨?_, ?_, ?_⟩
  · obtain ⟨m', hm', hd'⟩ := hmd m (by rw [hc0])
    unfold ft_metadata
    rw [hm']
    exact hd'
  · intro c2 p d md hne hd
    subst hd
    unfold update_metadata
    simp [hne]
  · intro c2 p md cur heq hcur hv hdec
    unfold update_metadata
    rw [hcur]
    simp [heq, hv, Ne.symm hdec]

/-- Witness for C9 at a concrete trace: after construction with
24 decimals and one transfer, ft_metadata still reports 24. -/
theorem C9_decimals_immutable_witness :
    (ft_metadata ⟨"o", ⟨[("o", 100), ("u", 0)], 100⟩,
        some ⟨"ft-1.0.0", "T", "T", none, none, none, 24⟩⟩).decimals = 24 :=
  (C9_decimals_immutable 1 "o" 100 ⟨"ft-1.0.0", "T", "T", none, none, none, 24⟩
    ⟨"o", ⟨[("o", 100)], 100⟩, some ⟨"ft-1.0.0", "T", "T", none, none, none, 24⟩⟩
    (by rfl) [.opStorageDeposit "u" 1 none none]
    ⟨"o", ⟨[("o", 100), ("u", 0)], 100⟩,
      some ⟨"ft-1.0.0", "T", "T", none, none, none, 24⟩⟩
    0 (by rfl)).1

/-- C10: update_metadata and update_owner require exactly one yoctoNEAR
attached: any other attached deposit (zero, or more than one) aborts the
call with the payment-gate error before any authorization check — the
error is the same for owner and non-owner callers — and, as an
Except.error carries no successor state, the metadata and owner are left
unchanged. -/
theorem C10_one_yocto_gate (c : Contract) (p : AccountId) (d : Nat)
    (m : FTMetadata) (nw : AccountId) (hd : d ≠ 1) :
    update_metadata c p d m = .error .InsufficientAuthorizationPayment ∧
    update_owner c p d nw = .error .InsufficientAuthorizationPayment := by
  unfold update_metadata update_owner
  simp [hd]

/-- Witness for C10 at concrete inputs: with zero attached deposit even
the owner's update_owner call aborts at the payment gate. -/
theorem C10_one_yocto_gate_witness :
    update_owner ⟨"o", ⟨[("o", 100)], 100⟩, none⟩ "o" 0 "p" =
      .error .InsufficientAuthorizationPayment :=
  (C10_one_yocto_gate ⟨"o", ⟨[("o", 100)], 100⟩, none⟩ "o" 0
    ⟨"ft-1.0.0", "T", "T", none, none, none, 24⟩ "p" (by decide)).2

end PublicaiToken
